import Mathlib

/-!
# RadioPlayer: a shallow embedding of the playout modules

This file embeds the parts of the RadioPlayer repository that the checked
claims are about:

* the `Track` data model (`src/modules/__init__.py`, plus the
  `focus_time_offset` field of the player core's Track, spec §3, which the
  modules under `src/modules` construct via keyword argument);
* the ffmpeg process manager (`src/modules/ffmpeg_procman.py`);
* the inter-module-communication registry (`src/modules/__init__.py`);
* the plaintext playlist parser (`src/modules/playlist_parser.py`);
* the shuffler and jingle playlist modifiers (`src/modules/shuffler.py`,
  `src/modules/jingle.py`);
* the "toplay" active modifier (`src/modules/active_modifier.py`).

Python dictionaries are modelled as association lists, file systems and
glob expansion as explicit environment functions, real-valued seconds as
rationals, `datetime` wall-clock values as rational timestamps, and the
module-level random generator as an explicit stream of draws.  Functions
that can raise a Python exception return `Option` (`none` = exception).
-/

section StringHelpers

/-!  Character-list implementations of the Python string primitives the
modules use (`str.strip`, `str.split`, `int(str)`), written by structural
recursion so that concrete playlists evaluate inside proofs. -/

/-- `s.split(sep)` for a one-character separator, on the character list:
Python semantics, so adjacent separators and string edges yield empty
fields. -/
def splitChars (sep : Char) : List Char → List (List Char)
  | [] => [[]]
  | c :: rest =>
    if c = sep then [] :: splitChars sep rest
    else
      match splitChars sep rest with
      | [] => [[c]]
      | l :: ls => (c :: l) :: ls

/-- `s.split(sep)` for a one-character separator. -/
def pySplit (s : String) (sep : Char) : List String :=
  (splitChars sep s.data).map (fun l => ⟨l⟩)

/-- `s.strip()`. -/
def pyStrip (s : String) : String :=
  ⟨((s.data.dropWhile Char.isWhitespace).reverse.dropWhile Char.isWhitespace).reverse⟩

/-- `s.startswith(c)` for a one-character prefix. -/
def pyStartsWith (s : String) (c : Char) : Bool :=
  match s.data with
  | [] => false
  | c0 :: _ => c0 = c

/-- `s[1:]`, i.e. `removeprefix` after a successful one-character
`startswith` test. -/
def pyDrop1 (s : String) : String := ⟨s.data.drop 1⟩

/-- `c in s` for a character. -/
def pyContains (s : String) (c : Char) : Bool := s.data.contains c

/-- The numeric value of a decimal digit, if it is one. -/
def digitVal (c : Char) : Option Nat :=
  if '0' ≤ c ∧ c ≤ '9' then some (c.toNat - '0'.toNat) else none

/-- Accumulating all-digits parse of a character list. -/
def natOfChars : List Char → Nat → Option Nat
  | [], acc => some acc
  | c :: rest, acc =>
    match digitVal c with
    | none => none
    | some d => natOfChars rest (acc * 10 + d)

/-- Parse of a non-empty all-digit string (`int(s)` for unsigned `s`). -/
def pyToNat (s : String) : Option Nat :=
  match s.data with
  | [] => none
  | l => natOfChars l 0

/-- `int(s)` on a stripped string: optional sign, then digits. -/
def pyToInt (s : String) : Option Int :=
  if pyStartsWith s '-' then (pyToNat (pyDrop1 s)).map (fun n => -(n : Int))
  else if pyStartsWith s '+' then (pyToNat (pyDrop1 s)).map (fun n => (n : Int))
  else (pyToNat s).map (fun n => (n : Int))

end StringHelpers

/-- A Python value as it occurs in parsed playlist argument mappings:
either a string (from `k=v`) or a boolean (a bare `k` is stored as `True`). -/
inductive PyVal where
  | pstr (s : String)
  | pbool (b : Bool)
deriving DecidableEq, Repr

/-- Python truthiness for the values above: a string is truthy iff
non-empty, a boolean is itself. -/
def PyVal.truthy : PyVal → Bool
  | .pstr s => s ≠ ""
  | .pbool b => b

/-- Python's `int(...)` conversion on such a value; `none` models a
`ValueError`.  `int` strips surrounding whitespace from strings. -/
def pyInt : PyVal → Option Int
  | .pbool b => some (if b then 1 else 0)
  | .pstr s => pyToInt (pyStrip s)

/-- Decimal-string-to-rational parsing, the core of Python's `float(...)`
on the strings that occur in playlists: optional sign, integer part,
optional fractional part. `none` models a `ValueError`. -/
def decimalToRat (s : String) : Option ℚ :=
  if pyStartsWith s '-' then (decimalCore (pyDrop1 s)).map Neg.neg
  else if pyStartsWith s '+' then decimalCore (pyDrop1 s)
  else decimalCore s
where
  /-- unsigned part of `decimalToRat` -/
  decimalCore (s : String) : Option ℚ :=
    match pySplit s '.' with
    | [i] => (pyToNat i).map (fun n => (n : ℚ))
    | [i, f] =>
      if i = "" ∧ f = "" then none
      else
        match (if i = "" then some 0 else pyToNat i), (if f = "" then some 0 else pyToNat f) with
        | some ip, some fp => some ((ip : ℚ) + (fp : ℚ) / (10 : ℚ) ^ f.length)
        | _, _ => none
    | _ => none

/-- Python's `float(...)` conversion; `none` models a `ValueError`. -/
def pyFloat : PyVal → Option ℚ
  | .pbool b => some (if b then 1 else 0)
  | .pstr s => decimalToRat (pyStrip s)

/-- A Python `dict[str, ...]` with insertion order, as an association list. -/
abbrev Args := List (String × PyVal)

/-- First-match association-list lookup (Python `d.get(k)`; keys are unique
in the dictionaries we build, so first match is the binding). -/
def alookup {α : Type} : List (String × α) → String → Option α
  | [], _ => none
  | (k, v) :: rest, name => if k = name then some v else alookup rest name

/-- `d[k] = v` on an association list: overwrite the existing binding or
append a new one (Python dict assignment). -/
def argSet (a : Args) (k : String) (v : PyVal) : Args :=
  if (alookup a k).isSome then a.map (fun p => if p.1 = k then (k, v) else p)
  else a ++ [(k, v)]

/-- `int(d.get(k, 0))`, the pattern the modifiers use for flag arguments;
`none` models the `ValueError` raised on a non-numeric string. -/
def getIntDefault0 (a : Args) (k : String) : Option Int :=
  match alookup a k with
  | none => some 0
  | some v => pyInt v

/-- The `Track` dataclass (field order as in the source: the positional
constructor order is `path, fade_out, fade_in, official, args, offset`);
`focus_time_offset` is the extra timing field of the player core's Track
(spec §3) that `active_modifier.py`, `jingle.py` and `crossfade_init.py`
pass by keyword. -/
structure Track where
  path : String
  fade_out : ℚ
  fade_in : ℚ
  official : Bool
  args : Option Args
  offset : ℚ := 0
  focus_time_offset : ℚ := 0
deriving DecidableEq, Repr

/-- The `Process` dataclass of `ffmpeg_procman.py`: the `Popen` handle is
opaque; liveness (`poll`) is supplied externally where needed. -/
structure Process where
  track : Track
  started_at : ℚ
  duration : ℚ
deriving DecidableEq, Repr

/-- The mutable state of `ProcessManager`: its list of live processes. -/
structure PMState where
  processes : List Process := []
deriving DecidableEq, Repr

namespace ProcessManager

/-- `ProcessManager.play` (`ffmpeg_procman.py` lines 11–28).  `probe` is
`_get_audio_duration`, `pathExists` the `track.path.exists()` assertion,
`absPath` is `Path.absolute`, `now` is `time.monotonic()`.  Returns the
track object as it is after the call (the source mutates `track.offset`
in place when `offset >= duration`), the created process, and the new
manager state; `none` models a raised exception. -/
def play (probe : String → Option ℚ) (pathExists : String → Bool)
    (absPath : String → String) (now : ℚ) (s : PMState) (track : Track) :
    Option (Track × Process × PMState) :=
  if ¬ pathExists track.path then none
  else
    match probe (absPath track.path) with
    | none => none
    | some duration =>
      if duration = 0 then none  -- `if not duration: raise`
      else
        let track := if track.offset ≥ duration
          then { track with offset := max (duration - 1/10) 0 } else track
        let pr : Process := { track := track, started_at := now,
                              duration := duration - track.offset }
        some (track, pr, { processes := s.processes ++ [pr] })

/-- `ProcessManager.anything_playing` (lines 29–32): reap finished
processes (those whose `poll` is no longer running), return whether any
remain together with the updated state. -/
def anything_playing (poll : Process → Bool) (s : PMState) : Bool × PMState :=
  let ps := s.processes.filter poll
  (!ps.isEmpty, { processes := ps })

/-- `ProcessManager.stop_all` (lines 33–39): terminate (or kill) every
live process, then `processes.clear()` — unconditionally empties the set. -/
def stop_all (s : PMState) (_timeout : Option ℚ) : PMState :=
  { s with processes := [] }

end ProcessManager

/-- The IMC name table (`InterModuleCommunication.names_modules`),
polymorphic in the handler type. -/
structure IMCState (M : Type) where
  names_modules : List (String × M) := []

namespace InterModuleCommunication

/-- `InterModuleCommunication.register` (`modules/__init__.py` lines
151–157): reject a duplicate name, otherwise add the binding and accept. -/
def register {M : Type} (s : IMCState M) (module : M) (name : String) :
    Bool × IMCState M :=
  if (alookup s.names_modules name).isSome then (false, s)
  else (true, { names_modules := s.names_modules ++ [(name, module)] })

/-- Name resolution used by `send`. -/
def lookupName {M : Type} (s : IMCState M) (name : String) : Option M :=
  alookup s.names_modules name

/-- A run's registration sequence, applied in order. -/
def registerAll {M : Type} (s : IMCState M) (ops : List (String × M)) : IMCState M :=
  ops.foldl (fun st op => (register st op.2 op.1).2) s

end InterModuleCommunication

/-- The `{"action": "skip_next"}` branch of the active modifier's IMC
handler (`active_modifier.py` lines 166–168): if `data.get("set", True)`
is truthy, toggle `skip_next`; reply `{"status": "ok", "data": flag}`
with the flag's value after the branch.  `setArg` is the value bound to
`"set"` in the request (absent = `none`); the first component of the
result is the new flag, the second the reply. -/
def skipNextAction (setArg : Option PyVal) (skip_next : Bool) :
    Bool × (String × Bool) :=
  let flag := if (setArg.getD (.pbool true)).truthy then !skip_next else skip_next
  (flag, ("ok", flag))

section LookupLemmas

/-- Lookup across an appended association list. -/
theorem alookup_append {α : Type} (l₁ l₂ : List (String × α)) (k : String) :
    alookup (l₁ ++ l₂) k = ((alookup l₁ k).orElse fun _ => alookup l₂ k) := by
  induction l₁ with
  | nil => rfl
  | cons p rest ih =>
    by_cases h : p.1 = k <;> simp [alookup, h, ih, Option.orElse]

end LookupLemmas

/-- C4. `stop_all(timeout)` leaves the live set empty, and
`anything_playing()` called right afterwards returns `false`, for every
manager state, timeout, and liveness of the underlying processes. -/
theorem stop_all_empties_live_set (s : PMState) (timeout : Option ℚ)
    (poll : Process → Bool) :
    (ProcessManager.stop_all s timeout).processes = [] ∧
      (ProcessManager.anything_playing poll (ProcessManager.stop_all s timeout)).1 = false := by
  exact ⟨rfl, rfl⟩

/-- C5 counterexample. `ProcessManager.play` is not mutation-free: for a
track with `offset = 10` and probed duration `5`, the call clamps the
track's `offset` field in place to `max(5 − 0.1, 0) = 4.9 ≠ 10`, so the
track after the call differs from the track before it.  This refutes the
claim that `play` leaves all fields of its argument (here the track with
path `"a.mp3"` and offset `10`) unchanged. -/
theorem pm_play_mutates_offset_on_clamp :
    ((ProcessManager.play (fun _ => some 5) (fun _ => true) id 0 {}
        { path := "a.mp3", fade_out := 0, fade_in := 0, official := true,
          args := none, offset := 10, focus_time_offset := 0 }).map
        (fun r => r.1.offset)) = some (49/10 : ℚ) ∧ (49/10 : ℚ) ≠ 10 := by
  constructor
  · simp only [ProcessManager.play]
    norm_num
  · norm_num

/-- C5 amended. Whenever the probed duration exists, is non-zero, and
strictly exceeds the track's `offset`, `ProcessManager.play` leaves every
field of the track unchanged (the clamping mutation happens only when
`offset ≥ duration`). -/
theorem pm_play_preserves_track_when_offset_lt_duration
    (probe : String → Option ℚ) (pathExists : String → Bool)
    (absPath : String → String) (now : ℚ) (s : PMState) (t : Track) (d : ℚ)
    (hex : pathExists t.path = true) (hp : probe (absPath t.path) = some d)
    (hd : d ≠ 0) (ho : t.offset < d) :
    (ProcessManager.play probe pathExists absPath now s t).map Prod.fst = some t := by
  simp only [ProcessManager.play, hex, hp, Bool.not_true]
  simp only [if_neg hd, not_le.mpr ho, if_false, reduceIte, if_neg (not_le.mpr ho)]
  simp

/-- C5 amended, witness: a concrete track with `offset = 1 < 5 = duration`
passes through `play` unchanged. -/
theorem pm_play_preserves_track_witness :
    (ProcessManager.play (fun _ => some 5) (fun _ => true) id 0 {}
        { path := "b.mp3", fade_out := 2, fade_in := 3, official := true,
          args := none, offset := 1, focus_time_offset := 0 }).map Prod.fst =
      some { path := "b.mp3", fade_out := 2, fade_in := 3, official := true,
             args := none, offset := 1, focus_time_offset := 0 } :=
  pm_play_preserves_track_when_offset_lt_duration (fun _ => some 5) (fun _ => true)
    id 0 {} _ 5 rfl rfl (by decide) (by decide)

/-- Lookup after a whole registration sequence, generalized over the
initial state: the first existing binding wins, otherwise the first
successful registration in the sequence. -/
theorem lookup_registerAll {M : Type} (ops : List (String × M)) (s : IMCState M)
    (name : String) :
    InterModuleCommunication.lookupName (InterModuleCommunication.registerAll s ops) name =
      ((InterModuleCommunication.lookupName s name).orElse
        fun _ => (ops.find? (fun p => p.1 = name)).map Prod.snd) := by
  induction ops generalizing s with
  | nil => cases h : InterModuleCommunication.lookupName s name <;>
      simp [InterModuleCommunication.registerAll, h, Option.orElse]
  | cons op rest ih =>
    rw [show InterModuleCommunication.registerAll s (op :: rest) =
        InterModuleCommunication.registerAll
          ((InterModuleCommunication.register s op.2 op.1).2) rest from rfl, ih]
    by_cases hdup : (alookup s.names_modules op.1).isSome
    · -- duplicate: state unchanged by this op
      have hreg : (InterModuleCommunication.register s op.2 op.1).2 = s := by
        simp [InterModuleCommunication.register, hdup]
      rw [hreg]
      by_cases hn : op.1 = name
      · subst hn
        rcases Option.isSome_iff_exists.mp hdup with ⟨m0, hm⟩
        have hl : InterModuleCommunication.lookupName s op.1 = some m0 := hm
        simp [hl, Option.orElse]
      · have hfind : ((op :: rest).find? (fun p => p.1 = name)) =
            rest.find? (fun p => p.1 = name) := by
          simp [List.find?, decide_eq_false hn]
        rw [hfind]
    · -- fresh: the binding is appended
      have hnone : alookup s.names_modules op.1 = none := by
        cases h : alookup s.names_modules op.1 with
        | none => rfl
        | some m0 => rw [h] at hdup; simp at hdup
      have hreg : (InterModuleCommunication.register s op.2 op.1).2 =
          ⟨s.names_modules ++ [(op.1, op.2)]⟩ := by
        simp [InterModuleCommunication.register, hdup]
      rw [hreg]
      have hl : InterModuleCommunication.lookupName
          (⟨s.names_modules ++ [(op.1, op.2)]⟩ : IMCState M) name =
          ((alookup s.names_modules name).orElse fun _ => alookup [(op.1, op.2)] name) :=
        alookup_append _ _ _
      rw [hl]
      by_cases hn : op.1 = name
      · subst hn
        simp [hnone, alookup, Option.orElse, InterModuleCommunication.lookupName,
          List.find?]
      · have h1 : alookup [(op.1, op.2)] name = none := by simp [alookup, hn]
        have hfind : ((op :: rest).find? (fun p => p.1 = name)) =
            rest.find? (fun p => p.1 = name) := by
          simp [List.find?, decide_eq_false hn]
        rw [h1, hfind]
        cases h : alookup s.names_modules name <;>
          simp [Option.orElse, InterModuleCommunication.lookupName, h]

/-- C8. `register` rejects a duplicate name and leaves the table
unchanged, accepts a fresh name by adding the binding, and consequently,
after any registration sequence starting from the empty table, each name
resolves to the handler of its first successful registration (the first
occurrence of the name in the sequence). -/
theorem imc_register_spec {M : Type} (s : IMCState M) (m : M) (name : String) :
    ((InterModuleCommunication.lookupName s name).isSome = true →
        InterModuleCommunication.register s m name = (false, s)) ∧
    ((InterModuleCommunication.lookupName s name).isSome = false →
        (InterModuleCommunication.register s m name).1 = true ∧
        InterModuleCommunication.lookupName
          (InterModuleCommunication.register s m name).2 name = some m) ∧
    (∀ ops : List (String × M), ∀ n : String,
      InterModuleCommunication.lookupName
          (InterModuleCommunication.registerAll { names_modules := [] } ops) n =
        (ops.find? (fun p => p.1 = n)).map Prod.snd) := by
  refine ⟨fun hdup => ?_, fun hfresh => ?_, fun ops n => ?_⟩
  · have hdup' : (alookup s.names_modules name).isSome = true := hdup
    simp [InterModuleCommunication.register, hdup']
  · have hfresh' : (alookup s.names_modules name).isSome = false := hfresh
    have hnone : alookup s.names_modules name = none := by
      cases h : alookup s.names_modules name with
      | none => rfl
      | some m0 => rw [h] at hfresh'; simp at hfresh'
    constructor
    · simp [InterModuleCommunication.register, hfresh']
    · have hreg : (InterModuleCommunication.register s m name).2 =
          ⟨s.names_modules ++ [(name, m)]⟩ := by
        simp [InterModuleCommunication.register, hfresh']
      rw [hreg]
      have hl : InterModuleCommunication.lookupName
          (⟨s.names_modules ++ [(name, m)]⟩ : IMCState M) name =
          ((alookup s.names_modules name).orElse fun _ => alookup [(name, m)] name) :=
        alookup_append _ _ _
      rw [hl, hnone]
      simp [alookup, Option.orElse]
  · rw [lookup_registerAll]
    have : InterModuleCommunication.lookupName
        ({ names_modules := [] } : IMCState M) n = none := rfl
    rw [this]
    cases h : ops.find? (fun p => p.1 = n) <;> simp [Option.orElse]

/-- C8 witness: on a table already holding `"advisor"`, re-registering
that name is rejected and the table keeps the original handler, while a
fresh `"procman"` is accepted; from the empty table, the first successful
registration of a name wins. -/
theorem imc_register_spec_witness :
    (InterModuleCommunication.register
        (⟨[("advisor", 1)]⟩ : IMCState Nat) 2 "advisor" = (false, ⟨[("advisor", 1)]⟩)) ∧
    ((InterModuleCommunication.register (⟨[("advisor", 1)]⟩ : IMCState Nat) 2 "procman").1 = true ∧
      InterModuleCommunication.lookupName
        (InterModuleCommunication.register (⟨[("advisor", 1)]⟩ : IMCState Nat) 2 "procman").2
        "procman" = some 2) ∧
    InterModuleCommunication.lookupName
        (InterModuleCommunication.registerAll ({ names_modules := [] } : IMCState Nat)
          [("activemod", 7), ("activemod", 9)]) "activemod" = some 7 := by
  refine ⟨?_, ?_, ?_⟩
  · exact (imc_register_spec (⟨[("advisor", 1)]⟩ : IMCState Nat) 2 "advisor").1 (by decide)
  · exact (imc_register_spec (⟨[("advisor", 1)]⟩ : IMCState Nat) 2 "procman").2.1 (by decide)
  · rw [(imc_register_spec (⟨[]⟩ : IMCState Nat) 0 "x").2.2
      [("activemod", 7), ("activemod", 9)] "activemod"]
    decide

/-- C10. The `skip_next` IMC action: with `"set"` absent or truthy the
flag toggles (so two such sends restore it), with a falsy `"set"` the
flag is unchanged, and every send replies `{"status": "ok"}` carrying the
flag's resulting value. -/
theorem skip_next_toggle_spec (setArg : Option PyVal) (flag : Bool) :
    (((setArg.getD (.pbool true)).truthy = true →
        (skipNextAction setArg flag).1 = !flag) ∧
      ((setArg.getD (.pbool true)).truthy = false →
        (skipNextAction setArg flag).1 = flag)) ∧
    (skipNextAction setArg flag).2 = ("ok", (skipNextAction setArg flag).1) ∧
    (∀ setArg2 : Option PyVal,
      (setArg.getD (.pbool true)).truthy = true →
      (setArg2.getD (.pbool true)).truthy = true →
      (skipNextAction setArg2 (skipNextAction setArg flag).1).1 = flag) := by
  refine ⟨⟨fun h => ?_, fun h => ?_⟩, ?_, fun setArg2 h1 h2 => ?_⟩
  · simp [skipNextAction, h]
  · simp [skipNextAction, h]
  · rfl
  · simp [skipNextAction, h1, h2]

/-- C10 witness: starting from `false`, a send with `"set"` absent
toggles to `true` and replies with `true`; a second send (with a truthy
`"set"`) restores `false`; a falsy `"set"` leaves the flag alone. -/
theorem skip_next_toggle_spec_witness :
    (skipNextAction none false).1 = true ∧
    (skipNextAction none false).2 = ("ok", (skipNextAction none false).1) ∧
    (skipNextAction (some (.pstr "yes")) (skipNextAction none false).1).1 = false ∧
    (skipNextAction (some (.pstr "")) false).1 = false := by
  refine ⟨?_, ?_, ?_, ?_⟩
  · exact (skip_next_toggle_spec none false).1.1 (by decide)
  · exact (skip_next_toggle_spec none false).2.1
  · exact (skip_next_toggle_spec none false).2.2 (some (.pstr "yes")) (by decide) (by decide)
  · exact (skip_next_toggle_spec (some (.pstr "")) false).1.2 (by decide)

/-- The filesystem visible to the playlist parser: an association of paths
to raw file lines (`path.read_text().splitlines()`); `glob` and `isFile`
model `glob.glob` and `Path.is_file` for content-line expansion. -/
structure ParserEnv where
  glob : String → List String
  isFile : String → Bool

/-- `path.read_text().splitlines()` followed by the strip-and-drop-blanks
comprehension at the top of `_check_for_imports`; `none` means the path
does not exist. -/
def linesOf (fs : List (String × List String)) (path : String) :
    Option (List String) :=
  (alookup fs path).map (fun raw => (raw.map pyStrip).filter (fun l => l ≠ ""))

/-- The line loop of `PlaintextParser._check_for_imports`
(`playlist_parser.py` lines 15–26), instrumented: besides the collected
non-import lines and the final visited set, it returns the list of files
read (one entry per `read_text` of an import target), in order.  An
`@target` line recurses into `target`'s lines provided the target was not
seen and exists, adding it to `seen` before the recursive call (the
Python mutates the shared set, so the updated set flows on to the
remaining lines); any other line is kept.  `fuel` decreases on every
step; `parse` below passes ample fuel, and `none` models only fuel
exhaustion. -/
def checkGo (fs : List (String × List String)) :
    Nat → List String → List String → Option (List String × List String × List String)
  | 0, _, _ => none
  | _ + 1, [], seen => some ([], seen, [])
  | fuel + 1, line :: rest, seen =>
    if pyStartsWith line '@' then
      let target := pyDrop1 line
      if target ∈ seen then checkGo fs fuel rest seen
      else
        match linesOf fs target with
        | none => checkGo fs fuel rest seen  -- missing target: logged, skipped
        | some tlines =>
          match checkGo fs fuel tlines (target :: seen) with
          | none => none
          | some (out1, seen1, reads1) =>
            match checkGo fs fuel rest seen1 with
            | none => none
            | some (out2, seen2, reads2) =>
              some (out1 ++ out2, seen2, (target :: reads1) ++ reads2)
    else
      match checkGo fs fuel rest seen with
      | none => none
      | some (out, seen2, reads) => some (line :: out, seen2, reads)

/-- `PlaintextParser._check_for_imports` on a whole file: read the file
(raising `Exception("Playlist doesn't exist")` — `none` — if missing,
which for the root is the only caller-visible case) and run the line
loop.  The read of `path` itself is recorded first. -/
def checkForImports (fs : List (String × List String)) (fuel : Nat)
    (path : String) (seen : List String) :
    Option (List String × List String × List String) :=
  match linesOf fs path with
  | none => none
  | some ls => (checkGo fs fuel ls seen).map (fun r => (r.1, r.2.1, path :: r.2.2))

/-- Fuel that over-approximates every step the Python recursion can take
(each file's line list is walked at most twice over a `parse` call). -/
def parseFuel (fs : List (String × List String)) : Nat :=
  2 * fs.foldl (fun n p => n + p.2.length + 1) 1

/-- Python `arg.split("=", 1)` when `"=" in arg`: key before the first
`=`, value the remainder. -/
def splitEq (arg : String) : Option (String × String) :=
  match pySplit arg '=' with
  | [] => none
  | [_] => none
  | k :: rest => some (k, String.intercalate "=" rest)

/-- The argument-parsing loop shared by both branches of `parse`: split on
`;`, store `k=v` as a string and a bare key as `True`. -/
def argLineParse (s : String) : Args :=
  (pySplit s ';').foldl (fun acc arg =>
    match splitEq arg with
    | some (k, v) => argSet acc k (.pstr v)
    | none => argSet acc arg (.pbool true)) []

/-- The line loop of `PlaintextParser.parse` (`playlist_parser.py` lines
30–55).  Note the source initializes `global_arguments = {}` and returns
it unchanged: the `|`-prefixed global-args branch stores into the
per-line `arguments` dict instead, and the full `|...` line is then
globbed and appended to `out` like a content line. -/
def parseLines (env : ParserEnv) (lines : List String) :
    Args × List (List String × Args) :=
  let global_arguments : Args := []
  let out := lines.foldl (fun acc line =>
    let line := pyStrip line
    if line = "" ∨ pyStartsWith line ';' ∨ pyStartsWith line '#' then acc
    else
      let (line, arguments) :=
        if pyContains line '|' then
          if pyStartsWith line '|' then (line, argLineParse (pyDrop1 line))
          else
            match pySplit line '|' with
            | f :: restParts => (f, argLineParse (String.intercalate "|" restParts))
            | [] => (line, [])  -- unreachable: `contains` guarantees a split
        else (line, [])
      acc ++ [((env.glob line).filter env.isFile, arguments)]) []
  (global_arguments, out)

/-- `PlaintextParser.parse` (lines 28–55): resolve imports, then parse
the collected lines. -/
def PlaintextParser.parse (env : ParserEnv) (fs : List (String × List String))
    (playlist_path : String) : Option (Args × List (List String × Args)) :=
  (checkForImports fs (parseFuel fs) playlist_path []).map (fun r => parseLines env r.1)

/-- C2. The parser never populates its global-arguments mapping: on a
playlist whose single line is `|crossfade=3;no_shuffle`, `parse` returns
`{}` as the first component — the arguments end up in the per-line dict
of a spurious entry with no matched files — whereas the claim (and spec)
require the first component to map `crossfade` to `3` and `no_shuffle`
to a truthy value. -/
theorem parse_global_args_left_empty :
    PlaintextParser.parse ⟨fun _ => [], fun _ => false⟩
        [("p", ["|crossfade=3;no_shuffle"])] "p" =
      some ([], [([], [("crossfade", .pstr "3"), ("no_shuffle", .pbool true)])]) := by
  rfl

/-- C3 counterexample. A root file `a` whose first line imports `a`
itself (and whose second line is the content line `x`): the root is never
pre-seeded into the visited set, so `parse("a")` reads `a` twice (the
instrumented read list is `["a", "a"]`) and includes its content line
`x` twice — refuting "each file named by an `@` import directive is read
and its lines included at most once, … including a cycle that leads back
to the root file". -/
theorem parse_root_cycle_included_twice :
    checkForImports [("a", ["@a", "x"])] (parseFuel [("a", ["@a", "x"])]) "a" [] =
      some (["x", "x"], ["a"], ["a", "a"]) ∧
    PlaintextParser.parse ⟨fun s => [s], fun _ => true⟩ [("a", ["@a", "x"])] "a" =
      some ([], [(["x"], []), (["x"], [])]) := by
  exact ⟨rfl, rfl⟩

/-- Invariant of the instrumented import walk: the files read are
pairwise distinct, none of them was already in the visited set, and the
final visited set is the initial one plus exactly the files read. -/
theorem checkGo_inv (fs : List (String × List String)) :
    ∀ fuel lines seen out seen2 reads,
      checkGo fs fuel lines seen = some (out, seen2, reads) →
      reads.Nodup ∧ (∀ q ∈ reads, q ∉ seen) ∧
        (∀ q, q ∈ seen2 ↔ q ∈ seen ∨ q ∈ reads) := by
  intro fuel
  induction fuel with
  | zero => intro lines seen out seen2 reads h; simp [checkGo] at h
  | succ n ih =>
    intro lines seen out seen2 reads h
    cases lines with
    | nil =>
      simp only [checkGo, Option.some.injEq, Prod.mk.injEq] at h
      obtain ⟨h1, h2, h3⟩ := h
      subst h1; subst h2; subst h3
      refine ⟨List.nodup_nil, by simp, fun q => by simp⟩
    | cons line rest =>
      simp only [checkGo] at h
      by_cases himp : pyStartsWith line '@' = true
      · rw [if_pos himp] at h
        by_cases hseen : pyDrop1 line ∈ seen
        · rw [if_pos hseen] at h
          exact ih rest seen out seen2 reads h
        · rw [if_neg hseen] at h
          cases htl : linesOf fs (pyDrop1 line) with
          | none => simp only [htl] at h; exact ih rest seen out seen2 reads h
          | some tlines =>
            simp only [htl] at h
            cases h1 : checkGo fs n tlines (pyDrop1 line :: seen) with
            | none => simp only [h1] at h; exact Option.noConfusion h
            | some r1 =>
              obtain ⟨out1, seen1, reads1⟩ := r1
              simp only [h1] at h
              cases h2 : checkGo fs n rest seen1 with
              | none => simp only [h2] at h; exact Option.noConfusion h
              | some r2 =>
                obtain ⟨out2, seen2', reads2⟩ := r2
                simp only [h2, Option.some.injEq, Prod.mk.injEq] at h
                obtain ⟨ho, hs, hr⟩ := h
                subst ho; subst hs; subst hr
                obtain ⟨hn1, hd1, hs1⟩ := ih tlines (pyDrop1 line :: seen) out1 seen1 reads1 h1
                obtain ⟨hn2, hd2, hs2⟩ := ih rest seen1 out2 seen2' reads2 h2
                have htarget_notin_r1 : pyDrop1 line ∉ reads1 := fun hq =>
                  hd1 _ hq (List.mem_cons_self _ _)
                have hr2_not_target : ∀ q ∈ reads2, q ≠ pyDrop1 line := by
                  intro q hq hEq
                  exact hd2 q hq ((hs1 q).mpr (Or.inl (hEq ▸ List.mem_cons_self _ _)))
                have hr2_not_r1 : ∀ q ∈ reads2, q ∉ reads1 := by
                  intro q hq hq1
                  exact hd2 q hq ((hs1 q).mpr (Or.inr hq1))
                refine ⟨?_, ?_, ?_⟩
                · rw [List.nodup_append]
                  refine ⟨List.nodup_cons.mpr ⟨htarget_notin_r1, hn1⟩, hn2, ?_⟩
                  intro q hq hq2
                  rcases List.mem_cons.mp hq with hq | hq
                  · exact hr2_not_target q hq2 hq
                  · exact hr2_not_r1 q hq2 hq
                · intro q hq
                  rcases List.mem_append.mp hq with hq | hq
                  · rcases List.mem_cons.mp hq with hq | hq
                    · rw [hq]; exact hseen
                    · intro hqs
                      exact hd1 q hq (List.mem_cons.mpr (Or.inr hqs))
                  · intro hqs
                    exact hd2 q hq ((hs1 q).mpr (Or.inl (List.mem_cons.mpr (Or.inr hqs))))
                · intro q
                  rw [hs2 q, hs1 q]
                  simp only [List.mem_cons, List.mem_append]
                  tauto
      · rw [if_neg himp] at h
        cases h1 : checkGo fs n rest seen with
        | none => simp only [h1] at h; exact Option.noConfusion h
        | some r1 =>
          obtain ⟨out1, seen1, reads1⟩ := r1
          simp only [h1, Option.some.injEq, Prod.mk.injEq] at h
          obtain ⟨ho, hs, hr⟩ := h
          subst hs; subst hr
          exact ih rest seen out1 seen1 reads1 h1

/-- C3 amended. Over a whole `parse` call (visited set initially empty),
every file other than the root is read — and hence has its lines
included — at most once, even on cyclic import graphs; the root itself
may be read at most twice (once as the root, once more if a cycle leads
back to it, since the root is not pre-seeded into the visited set). -/
theorem checkForImports_reads_bound (fs : List (String × List String))
    (fuel : Nat) (p : String) (out seen2 reads : List String)
    (h : checkForImports fs fuel p [] = some (out, seen2, reads)) :
    ∀ q, reads.count q ≤ if q = p then 2 else 1 := by
  intro q
  unfold checkForImports at h
  cases hl : linesOf fs p with
  | none => simp only [hl] at h; exact Option.noConfusion h
  | some ls =>
    simp only [hl] at h
    cases hg : checkGo fs fuel ls [] with
    | none => simp only [hg] at h; exact Option.noConfusion h
    | some r =>
      obtain ⟨out1, seen1, reads1⟩ := r
      simp only [hg, Option.map, Option.some.injEq, Prod.mk.injEq] at h
      obtain ⟨ho, hs, hr⟩ := h
      subst hr
      obtain ⟨hn, _, _⟩ := checkGo_inv fs fuel ls [] out1 seen1 reads1 hg
      have hcount1 : reads1.count q ≤ 1 := List.nodup_iff_count_le_one.mp hn q
      rw [List.count_cons]
      by_cases hq : q = p
      · subst hq; simp; omega
      · rw [if_neg hq]
        simp only [beq_iff_eq]
        rw [if_neg (fun hpq => hq hpq.symm)]
        omega

/-- C3 amended, witness: on the self-importing file `a` the read-count
bound holds — `a` (the root) is read at most twice, the non-root path
`x` at most once. -/
theorem checkForImports_reads_bound_witness :
    ((["a", "a"] : List String).count "a" ≤ if "a" = "a" then 2 else 1) ∧
    ((["a", "a"] : List String).count "x" ≤ if "x" = "a" then 2 else 1) :=
  ⟨checkForImports_reads_bound [("a", ["@a", "x"])] (parseFuel [("a", ["@a", "x"])])
      "a" ["x", "x"] ["a"] ["a", "a"] rfl "a",
   checkForImports_reads_bound [("a", ["@a", "x"])] (parseFuel [("a", ["@a", "x"])])
      "a" ["x", "x"] ["a"] ["a", "a"] rfl "x"⟩

/-- `Module.modify` of the shuffler (`shuffler.py` lines 12–15): when
`int(global_args.get("no_shuffle", 0))` is `0`, shuffle the playlist in
place (the permutation drawn from the module-level RNG is the `shuffle`
parameter), otherwise pass it through; `none` models the `ValueError`
raised by `int()` on a non-numeric string. -/
def shufflerModify (shuffle : List Track → List Track) (global_args : Args)
    (playlist : List Track) : Option (List Track) :=
  match getIntDefault0 global_args "no_shuffle" with
  | none => none
  | some n => if n = 0 then some (shuffle playlist) else some playlist

/-- C7 counterexample. The string `"0"` is a truthy Python value (it is a
non-empty string), yet `int("0") == 0`, so with `no_shuffle=0` the
shuffler still permutes: for a random state that reverses the two-track
playlist, `modify` returns the reversed list, not the identity —
refuting "for every global_args in which `no_shuffle` is set to a truthy
value, modify returns the playlist unchanged". -/
theorem shuffler_truthy_zero_string_shuffles :
    PyVal.truthy (.pstr "0") = true ∧
    shufflerModify List.reverse [("no_shuffle", .pstr "0")]
        [{ path := "a", fade_out := 0, fade_in := 0, official := true, args := none },
         { path := "b", fade_out := 0, fade_in := 0, official := true, args := none }] =
      some [{ path := "b", fade_out := 0, fade_in := 0, official := true, args := none },
            { path := "a", fade_out := 0, fade_in := 0, official := true, args := none }] ∧
    ([{ path := "b", fade_out := 0, fade_in := 0, official := true, args := none },
      { path := "a", fade_out := 0, fade_in := 0, official := true, args := none }] : List Track) ≠
      [{ path := "a", fade_out := 0, fade_in := 0, official := true, args := none },
       { path := "b", fade_out := 0, fade_in := 0, official := true, args := none }] := by
  refine ⟨rfl, rfl, ?_⟩
  intro h
  have := List.head_eq_of_cons_eq h
  simp at this

/-- C7 amended. The shuffler is the identity exactly on the arguments the
code tests for: whenever the `no_shuffle` value's `int()` conversion is
defined and non-zero (a bare flag, `True`, or a non-zero numeric string),
`modify` returns the playlist unchanged — for every playlist and every
random state. -/
theorem shuffler_no_shuffle_nonzero_identity (shuffle : List Track → List Track)
    (global_args : Args) (playlist : List Track) (v : PyVal) (n : Int)
    (hv : alookup global_args "no_shuffle" = some v) (hn : pyInt v = some n)
    (hnz : n ≠ 0) :
    shufflerModify shuffle global_args playlist = some playlist := by
  simp only [shufflerModify, getIntDefault0, hv, hn, if_neg hnz]

/-- C7 amended, witness: a bare `no_shuffle` flag (stored as `True`)
passes a two-track playlist through unchanged even under a reversing
random state. -/
theorem shuffler_no_shuffle_nonzero_identity_witness :
    shufflerModify List.reverse [("no_shuffle", .pbool true)]
        [{ path := "a", fade_out := 0, fade_in := 0, official := true, args := none },
         { path := "b", fade_out := 0, fade_in := 0, official := true, args := none }] =
      some [{ path := "a", fade_out := 0, fade_in := 0, official := true, args := none },
            { path := "b", fade_out := 0, fade_in := 0, official := true, args := none }] :=
  shuffler_no_shuffle_nonzero_identity List.reverse _ _ (.pbool true) 1 rfl rfl
    (by decide)

/-- The module-level random generator, as the stream of successive draws
(`random.randint(1,3)` results and `random.choice` index draws come from
the same underlying generator; the `k`-th call reads `rand k`). -/
structure JingleEnv where
  rand : Nat → Nat

/-- Jingle selection (`jingle.py` lines 29–30): primary by default; if the
secondary pool is non-empty, with probability 1/3 (`randint(1,3) == 1`)
draw one member of the pool.  Returns the chosen path and the next draw
counter. -/
def jingleTrackOf (env : JingleEnv) (primary : String) (secondary : List String)
    (k : Nat) : String × Nat :=
  if secondary.isEmpty then (primary, k)
  else if env.rand k = 1 then
    let i := env.rand (k + 1)
    ((secondary.get? (i % secondary.length)).getD primary, k + 2)
  else (primary, k + 1)

/-- `Track(track.path, crossfade, crossfade, True, track.args,
focus_time_offset=-crossfade)` — the pass-through copy (`jingle.py`
line 34). -/
def jingleMkPlain (crossfade : ℚ) (t : Track) : Track :=
  { path := t.path, fade_out := crossfade, fade_in := crossfade, official := true,
    args := t.args, offset := 0, focus_time_offset := -crossfade }

/-- `Track(track.path, crossfade, 0, True, track.args,
focus_time_offset=-crossfade)` — the copy preceding an inserted jingle
(line 28). -/
def jingleMkIns (crossfade : ℚ) (t : Track) : Track :=
  { path := t.path, fade_out := crossfade, fade_in := 0, official := true,
    args := t.args, offset := 0, focus_time_offset := -crossfade }

/-- `Track(jingle, 0, 0, False, {})` — the inserted jingle (line 31). -/
def jingleMkJingle (p : String) : Track :=
  { path := p, fade_out := 0, fade_in := 0, official := false, args := some [],
    offset := 0, focus_time_offset := 0 }

/-- `int(track.args.get("no_jingle", 0))` guarded by
`track.args is None` (line 27): `some 0` also for absent args (in both
cases the insertion condition holds); `none` models the `ValueError`. -/
def noJingleInt (t : Track) : Option Int :=
  match t.args with
  | none => some 0
  | some a =>
    match alookup a "no_jingle" with
    | none => some 0
    | some v => pyInt v

/-- Whether `noJingleInt` is defined for a track (no `ValueError`). -/
def jingleArgOk (t : Track) : Bool := (noJingleInt t).isSome

/-- The sweep of the jingle modifier (`jingle.py` lines 24–36):
`lastJ` is `last_jingiel` (initially true, so a playlist never starts
with a jingle), `k` the draw counter.  When `lastJ` is false a
`randint(1,3)` is drawn; on a hit and a permitting `no_jingle` argument
the track copy (fade_in 0) and a jingle are emitted and `lastJ` becomes
true; otherwise a plain copy is emitted. -/
def jingleGo (env : JingleEnv) (primary : String) (secondary : List String)
    (crossfade : ℚ) : List Track → Bool → Nat → Option (List Track)
  | [], _, _ => some []
  | track :: rest, lastJ, k =>
    if lastJ then
      (jingleGo env primary secondary crossfade rest false k).map
        (fun out => jingleMkPlain crossfade track :: out)
    else if env.rand k = 1 then
      match noJingleInt track with
      | none => none
      | some n =>
        if n = 0 then
          let jt := jingleTrackOf env primary secondary (k + 1)
          (jingleGo env primary secondary crossfade rest true jt.2).map
            (fun out => jingleMkIns crossfade track :: jingleMkJingle jt.1 :: out)
        else
          (jingleGo env primary secondary crossfade rest false (k + 1)).map
            (fun out => jingleMkPlain crossfade track :: out)
    else
      (jingleGo env primary secondary crossfade rest false (k + 1)).map
        (fun out => jingleMkPlain crossfade track :: out)

/-- `float(global_args.get("crossfade", 5.0))` (`jingle.py` line 25). -/
def cfArg (ga : Args) : Option ℚ :=
  match alookup ga "crossfade" with
  | none => some 5
  | some v => pyFloat v

/-- `Module.modify` of the jingle modifier (`jingle.py` lines 21–36).
Outer `none` models a raised exception; `some none` is the modifier
returning Python `None` ("no change"); `some (some out)` a rewritten
playlist.  (`or not self.primary` on line 22 is always false: `Path`
objects have no `__bool__`/`__len__`, so they are always truthy.) -/
def jingleModify (env : JingleEnv) (primary : String) (secondary : List String)
    (global_args : Args) (playlist : List Track) : Option (Option (List Track)) :=
  match getIntDefault0 global_args "no_jingle" with
  | none => none
  | some n =>
    if n ≠ 0 then some none
    else
      match cfArg global_args with
      | none => none
      | some crossfade =>
        (jingleGo env primary secondary crossfade playlist true 0).map some

/-- No two adjacent tracks of the list are both non-official (i.e. at
most one jingle sits between consecutive official tracks). -/
def jingleSpaced : List Track → Bool
  | x :: y :: rest => (x.official || y.official) && jingleSpaced (y :: rest)
  | _ => true

/-- The chosen jingle is the primary path or a member of the secondary
pool. -/
theorem jingleTrackOf_mem (env : JingleEnv) (primary : String)
    (secondary : List String) (k : Nat) :
    (jingleTrackOf env primary secondary k).1 = primary ∨
      (jingleTrackOf env primary secondary k).1 ∈ secondary := by
  unfold jingleTrackOf
  by_cases he : secondary.isEmpty
  · rw [if_pos he]; exact Or.inl rfl
  · rw [if_neg he]
    by_cases hr : env.rand k = 1
    · rw [if_pos hr]
      dsimp only
      cases hget : secondary.get? (env.rand (k + 1) % secondary.length) with
      | none => exact Or.inl rfl
      | some x => exact Or.inr (List.get?_mem hget)
    · rw [if_neg hr]; exact Or.inl rfl

/-- Unfolding of the jingle sweep at a cons with `last_jingiel` set. -/
theorem jingleGo_cons_true (env : JingleEnv) (primary : String)
    (secondary : List String) (cf : ℚ) (t : Track) (rest : List Track) (k : Nat) :
    jingleGo env primary secondary cf (t :: rest) true k =
      (jingleGo env primary secondary cf rest false k).map
        (fun out => jingleMkPlain cf t :: out) := rfl

/-- Unfolding of the jingle sweep at a cons with `last_jingiel` clear. -/
theorem jingleGo_cons_false (env : JingleEnv) (primary : String)
    (secondary : List String) (cf : ℚ) (t : Track) (rest : List Track) (k : Nat) :
    jingleGo env primary secondary cf (t :: rest) false k =
      (if env.rand k = 1 then
        match noJingleInt t with
        | none => none
        | some n =>
          if n = 0 then
            (jingleGo env primary secondary cf rest true
              (jingleTrackOf env primary secondary (k + 1)).2).map
              (fun out => jingleMkIns cf t ::
                jingleMkJingle (jingleTrackOf env primary secondary (k + 1)).1 :: out)
          else
            (jingleGo env primary secondary cf rest false (k + 1)).map
              (fun out => jingleMkPlain cf t :: out)
      else
        (jingleGo env primary secondary cf rest false (k + 1)).map
          (fun out => jingleMkPlain cf t :: out)) := rfl

/-- Prepending an official track preserves `jingleSpaced`. -/
theorem jingleSpaced_cons_official (c : Track) (hc : c.official = true)
    (out : List Track) (hout : jingleSpaced out = true) :
    jingleSpaced (c :: out) = true := by
  cases out with
  | nil => rfl
  | cons y ys => simp [jingleSpaced, hc] at hout ⊢; exact hout

/-- Prepending any track to a list whose head is official preserves
`jingleSpaced`. -/
theorem jingleSpaced_cons_of_head_official (j : Track) (out : List Track)
    (hhd : ∀ x, out.head? = some x → x.official = true)
    (hout : jingleSpaced out = true) :
    jingleSpaced (j :: out) = true := by
  cases out with
  | nil => rfl
  | cons y ys =>
    have hy : y.official = true := hhd y rfl
    simp [jingleSpaced, hy] at hout ⊢
    exact hout

/-- Full behaviour of the jingle sweep under parse-safe per-track
arguments: it succeeds, its official tracks are exactly the input paths
in order, its non-official tracks are jingles (primary or pool member)
with zero fades, no two jingles are adjacent, and the output never
starts with a jingle. -/
theorem jingleGo_spec (env : JingleEnv) (primary : String)
    (secondary : List String) (cf : ℚ) :
    ∀ (ts : List Track) (lastJ : Bool) (k : Nat),
      (∀ t ∈ ts, jingleArgOk t = true) →
      ∃ out, jingleGo env primary secondary cf ts lastJ k = some out ∧
        ((out.filter (fun x => x.official)).map Track.path = ts.map Track.path) ∧
        (∀ x ∈ out, x.official = false →
          (x.path = primary ∨ x.path ∈ secondary) ∧ x.fade_in = 0 ∧ x.fade_out = 0) ∧
        jingleSpaced out = true ∧
        (∀ x, out.head? = some x → x.official = true) := by
  intro ts
  induction ts with
  | nil =>
    intro lastJ k _
    exact ⟨[], rfl, rfl, by simp, rfl, fun x hx => by simp at hx⟩
  | cons t rest ih =>
    intro lastJ k hargs
    have hrest : ∀ t' ∈ rest, jingleArgOk t' = true :=
      fun t' ht' => hargs t' (List.mem_cons_of_mem _ ht')
    have ht : jingleArgOk t = true := hargs t (List.mem_cons_self _ _)
    -- helper for the three plain-copy branches
    have hplain : ∀ k' : Nat,
        ∃ out, (jingleGo env primary secondary cf rest false k').map
            (fun o => jingleMkPlain cf t :: o) = some out ∧
          ((out.filter (fun x => x.official)).map Track.path =
            (t :: rest).map Track.path) ∧
          (∀ x ∈ out, x.official = false →
            (x.path = primary ∨ x.path ∈ secondary) ∧ x.fade_in = 0 ∧ x.fade_out = 0) ∧
          jingleSpaced out = true ∧
          (∀ x, out.head? = some x → x.official = true) := by
      intro k'
      obtain ⟨o, ho, hoff, hjing, hsp, hhd⟩ := ih false k' hrest
      refine ⟨jingleMkPlain cf t :: o, by rw [ho]; rfl, ?_, ?_, ?_, ?_⟩
      · rw [show List.filter (fun x => x.official) (jingleMkPlain cf t :: o) =
            jingleMkPlain cf t :: List.filter (fun x => x.official) o from by
              simp [jingleMkPlain], List.map_cons, List.map_cons, hoff]
        rfl
      · intro x hx hxoff
        rcases List.mem_cons.mp hx with hx | hx
        · rw [hx] at hxoff; exact absurd hxoff (by simp [jingleMkPlain])
        · exact hjing x hx hxoff
      · exact jingleSpaced_cons_official _ rfl o hsp
      · intro x hx
        simp only [List.head?_cons, Option.some.injEq] at hx
        rw [← hx]; rfl
    cases lastJ with
    | true =>
      obtain ⟨out, hout, rest'⟩ := hplain k
      refine ⟨out, ?_, rest'⟩
      rw [jingleGo_cons_true]
      exact hout
    | false =>
      by_cases hr : env.rand k = 1
      · -- a roll happened
        cases hn : noJingleInt t with
        | none => rw [jingleArgOk, hn] at ht; simp at ht
        | some n =>
          by_cases hz : n = 0
          · -- insert a jingle after this track
            subst hz
            obtain ⟨o, ho, hoff, hjing, hsp, hhd⟩ :=
              ih true (jingleTrackOf env primary secondary (k + 1)).2 hrest
            refine ⟨jingleMkIns cf t ::
                jingleMkJingle (jingleTrackOf env primary secondary (k + 1)).1 :: o,
              ?_, ?_, ?_, ?_, ?_⟩
            · rw [jingleGo_cons_false, if_pos hr]
              simp only [hn, reduceIte]
              rw [ho]
              rfl
            · rw [show List.filter (fun x => x.official)
                  (jingleMkIns cf t ::
                    jingleMkJingle (jingleTrackOf env primary secondary (k + 1)).1 :: o) =
                  jingleMkIns cf t :: List.filter (fun x => x.official) o from by
                    simp [jingleMkIns, jingleMkJingle],
                List.map_cons, List.map_cons, hoff]
              rfl
            · intro x hx hxoff
              rcases List.mem_cons.mp hx with hx | hx
              · rw [hx] at hxoff; exact absurd hxoff (by simp [jingleMkIns])
              · rcases List.mem_cons.mp hx with hx | hx
                · rw [hx]
                  exact ⟨jingleTrackOf_mem env primary secondary (k + 1), rfl, rfl⟩
                · exact hjing x hx hxoff
            · refine jingleSpaced_cons_official _ rfl _ ?_
              exact jingleSpaced_cons_of_head_official _ o hhd hsp
            · intro x hx
              simp only [List.head?_cons, Option.some.injEq] at hx
              rw [← hx]; rfl
          · -- roll hit but the track forbids jingles
            obtain ⟨out, hout, rest'⟩ := hplain (k + 1)
            refine ⟨out, ?_, rest'⟩
            rw [jingleGo_cons_false, if_pos hr]
            simp only [hn]
            rw [if_neg hz]
            exact hout
      · -- roll missed
        obtain ⟨out, hout, rest'⟩ := hplain (k + 1)
        refine ⟨out, ?_, rest'⟩
        rw [jingleGo_cons_false, if_neg hr]
        exact hout

/-- C9 counterexample. With primary jingle path `J` and an input playlist
whose first track's path is also `J`, a random state that always rolls a
hit makes `modify` insert the jingle `J` after the second track: the
output paths are `[J, B, J]`, so the input track path `J` occurs twice in
the returned list — refuting "each input track's path occurs exactly
once". -/
theorem jingle_primary_path_collision :
    jingleModify ⟨fun _ => 1⟩ "J" [] []
        [{ path := "J", fade_out := 0, fade_in := 0, official := true, args := none },
         { path := "B", fade_out := 0, fade_in := 0, official := true, args := none }] =
      some (some
        [{ path := "J", fade_out := 5, fade_in := 5, official := true, args := none,
           offset := 0, focus_time_offset := -5 },
         { path := "B", fade_out := 5, fade_in := 0, official := true, args := none,
           offset := 0, focus_time_offset := -5 },
         { path := "J", fade_out := 0, fade_in := 0, official := false, args := some [],
           offset := 0, focus_time_offset := 0 }]) ∧
    (([{ path := "J", fade_out := 5, fade_in := 5, official := true, args := none,
         offset := 0, focus_time_offset := (-5 : ℚ) },
       { path := "B", fade_out := 5, fade_in := 0, official := true, args := none,
         offset := 0, focus_time_offset := -5 },
       { path := "J", fade_out := 0, fade_in := 0, official := false, args := some [],
         offset := 0, focus_time_offset := 0 }] : List Track).map Track.path).count "J"
      = 2 := by
  exact ⟨rfl, rfl⟩

/-- C9 amended. When `no_jingle` is absent from the global arguments,
the `crossfade` argument (absent or well-formed) converts, and every
track's own `no_jingle` argument converts (so no `ValueError` is
raised), `modify` returns a list whose official members are exactly the
input tracks' paths in the input's relative order, whose every other
member is a jingle — the primary path or one drawn from the secondary
pool — with `official = false` and `fade_in = fade_out = 0`, with at
most one jingle between consecutive official tracks and never a jingle
first.  (Stated over officiality rather than raw path counts: a jingle
whose path coincides with an input path is counted as a jingle.) -/
theorem jingle_modify_spec (env : JingleEnv) (primary : String)
    (secondary : List String) (global_args : Args) (playlist : List Track)
    (cf : ℚ) (hng : alookup global_args "no_jingle" = none)
    (hcf : cfArg global_args = some cf)
    (hargs : ∀ t ∈ playlist, jingleArgOk t = true) :
    ∃ out, jingleModify env primary secondary global_args playlist = some (some out) ∧
      ((out.filter (fun x => x.official)).map Track.path = playlist.map Track.path) ∧
      (∀ x ∈ out, x.official = false →
        (x.path = primary ∨ x.path ∈ secondary) ∧ x.fade_in = 0 ∧ x.fade_out = 0) ∧
      jingleSpaced out = true ∧
      (∀ x, out.head? = some x → x.official = true) := by
  obtain ⟨out, hout, hoff, hjing, hsp, hhd⟩ :=
    jingleGo_spec env primary secondary cf playlist true 0 hargs
  refine ⟨out, ?_, hoff, hjing, hsp, hhd⟩
  unfold jingleModify
  have h0 : getIntDefault0 global_args "no_jingle" = some 0 := by
    simp [getIntDefault0, hng]
  simp only [h0]
  rw [if_neg (by simp : ¬((0 : Int) ≠ 0))]
  simp only [hcf, hout]
  rfl

/-- C9 amended, witness: a two-track playlist, primary `J` and pool
`[S]`, empty global arguments, under an always-hit random state. -/
theorem jingle_modify_spec_witness :
    ∃ out, jingleModify ⟨fun _ => 1⟩ "J" ["S"] []
        [{ path := "A", fade_out := 0, fade_in := 0, official := true, args := none },
         { path := "B", fade_out := 0, fade_in := 0, official := true, args := none }] =
        some (some out) ∧
      ((out.filter (fun x => x.official)).map Track.path =
        ([{ path := "A", fade_out := 0, fade_in := 0, official := true, args := none },
          { path := "B", fade_out := 0, fade_in := 0, official := true, args := none }] :
            List Track).map Track.path) ∧
      (∀ x ∈ out, x.official = false →
        (x.path = "J" ∨ x.path ∈ ["S"]) ∧ x.fade_in = 0 ∧ x.fade_out = 0) ∧
      jingleSpaced out = true ∧
      (∀ x, out.head? = some x → x.official = true) :=
  jingle_modify_spec ⟨fun _ => 1⟩ "J" ["S"] [] _ 5 rfl rfl
    (fun t ht => by
      rcases List.mem_cons.mp ht with h | h
      · rw [h]; rfl
      · rcases List.mem_cons.mp h with h | h
        · rw [h]; rfl
        · simp at h)

/-- `datetime` hour of a local-time timestamp in seconds (day 0 starts at
local midnight): used for `now.hour` / `future.hour`. -/
def hourOf (t : ℚ) : ℤ := ⌊t / 3600⌋ % 24

/-- `datetime` day index of a local-time timestamp in seconds: two
timestamps fall on the same calendar day iff their indices agree (models
`future.day != now.day`). -/
def dayOf (t : ℚ) : ℤ := ⌊t / 86400⌋

/-- The environment of the active modifier: glob expansion and
regular-file test for toplay entries, `Path.absolute`, the duration
probe answered by the process manager over IMC (`{"op": 1}`), and the
current wall-clock timestamp. -/
structure AMEnv where
  glob : String → List String
  isFile : String → Bool
  absPath : String → String
  probe : String → Option ℚ
  now : ℚ

/-- The mutable state of the active modifier `Module`
(`active_modifier.py` lines 16–25 and `on_new_playlist`). -/
structure AMState where
  playlist : Option (List Track) := none
  originals : List Track := []
  last_track : Option Track := none
  limit_tracks : Bool := false
  can_limit_tracks : Bool := false
  morning_start : ℤ := 0
  day_end : ℤ := 0
  crossfade : ℚ := 5
  skip_next : Bool := false
deriving DecidableEq, Repr

/-- The modifier's result: `((current', next'), extend)`;
`((none, none), none)` is the skip signal. -/
abbrev AMResult := (Option Track × Option Track) × Option Bool

/-- Lines 43–45 of `Module.play`: read the toplay file (strip, drop
blanks), then glob-expand each entry keeping a leading `!`, filtering to
regular files. -/
def expandToplay (env : AMEnv) (toplay : List String) : List String :=
  ((toplay.map pyStrip).filter (fun l => l ≠ "")).flatMap (fun s0 =>
    ((env.glob (if pyStartsWith s0 '!' then pyDrop1 s0 else s0)).filter env.isFile).map
      (fun f => (if pyStartsWith s0 '!' then "!" else "") ++ f))

/-- `Module.play` of the active modifier (`active_modifier.py` lines
36–131).  The toplay file contents are threaded explicitly (read at
entry, rewritten after a pop); the result is the returned
`((current', next'), extend)` triple together with the new file contents
and module state.  `none` models a raised exception
(`NotImplementedError` for a `None` track, `IndexError` on
`playlist[index-1]`) — and exhausted fuel, which `amPlay` below rules
out: the self-call on line 101 happens at most once because `skip_next`
is cleared before it. -/
def amPlayFuel (env : AMEnv) :
    Nat → List String → AMState → ℤ → Option Track → Option Track →
    Option (AMResult × List String × AMState)
  | 0, _, _, _, _, _ => none
  | fuel + 1, toplay, s, index, trackArg, next_track0 =>
    match trackArg with
    | none => none
    | some track =>
      match s.playlist with
      | none => some (((some track, next_track0), some false), toplay, s)
      | some playlist =>
        if playlist.isEmpty then some (((some track, next_track0), some false), toplay, s)
        else
          match expandToplay env toplay with
          | song0 :: songsRest =>
            -- `get_song()`: pop the head, a leading `!` marks non-official
            let official := !(pyStartsWith song0 '!')
            let song := env.absPath (if pyStartsWith song0 '!' then pyDrop1 song0 else song0)
            -- lines 60–63
            let ltfo? : Option ℚ :=
              match s.last_track with
              | some lt => some lt.fade_out
              | none =>
                if index - 1 ≥ 0 then (playlist.get? (index - 1).toNat).map Track.fade_out
                else some 0
            match ltfo? with
            | none => none
            | some last_track_fade_out =>
              -- lines 65–69 (computed but never used afterwards in the source)
              let _next_track_fade_in : ℚ :=
                if !songsRest.isEmpty then s.crossfade
                else
                  match next_track0 with
                  | some nt =>
                    if index + 1 < (playlist.length : ℤ) then nt.fade_in else s.crossfade
                  | none => 0
              -- line 71: push the original unless already on top
              let s := if s.originals.isEmpty ∨ s.originals.getLast? ≠ some track then
                  { s with originals := s.originals ++ [track] } else s
              -- lines 73–76: rewrite the file with the remaining entries
              let toplay := songsRest
              match songsRest with
              | newSong0 :: _ =>
                -- lines 80–88: more queued entries follow
                let new_official := !(pyStartsWith newSong0 '!')
                let new_song := env.absPath
                  (if pyStartsWith newSong0 '!' then pyDrop1 newSong0 else newSong0)
                let current_track_fade_in := if official then last_track_fade_out else 0
                let crossfade_amount := if official && new_official then s.crossfade else 0
                let lastT : Track :=
                  { path := song, fade_out := crossfade_amount,
                    fade_in := current_track_fade_in, official := official, args := some [],
                    offset := 0, focus_time_offset := -crossfade_amount }
                let next_track_fade_out := if new_official then s.crossfade else 0
                let nextT : Track :=
                  { path := new_song, fade_out := next_track_fade_out,
                    fade_in := crossfade_amount, official := new_official, args := some [],
                    offset := 0, focus_time_offset := -crossfade_amount }
                let s := { s with last_track := some lastT, limit_tracks := false }
                if s.skip_next then
                  amPlayFuel env fuel toplay { s with skip_next := false } index
                    (some track) (some nextT)
                else some (((some lastT, some nextT), some true), toplay, s)
              | [] =>
                -- lines 89–96: last queued entry; the playlist track follows
                let next_playlist_track_fade_in :=
                  match next_track0 with
                  | some nt => nt.fade_in
                  | none => s.crossfade
                let current_track_fade_in := if official then last_track_fade_out else 0
                let current_track_fade_out := if official then next_playlist_track_fade_in else 0
                let lastT : Track :=
                  { path := song, fade_out := current_track_fade_out,
                    fade_in := current_track_fade_in, official := official, args := some [],
                    offset := 0, focus_time_offset := -current_track_fade_out }
                let s := { s with last_track := some lastT, limit_tracks := false }
                if s.skip_next then
                  amPlayFuel env fuel toplay { s with skip_next := false } index
                    (some track) (some track)
                else some (((some lastT, some track), some true), toplay, s)
          | [] =>
            -- lines 103–131: no queued songs
            let chosen := match s.originals with
              | o :: _ => o
              | [] => track
            let next_track := match s.originals with
              | _ :: rest => if rest.isEmpty then next_track0 else rest.head?
              | [] => next_track0
            let s := { s with last_track := some chosen, originals := s.originals.tail,
                              limit_tracks := s.can_limit_tracks }
            -- lines 109–126: the time-bleed guard
            let bleed : Bool :=
              if s.limit_tracks then
                match env.probe chosen.path with
                | some d =>
                  decide (d ≠ 0) && decide (d > 5 * 60) &&
                    (decide (hourOf env.now < s.morning_start ∧
                        s.morning_start ≤ hourOf (env.now + d)) ||
                     decide (hourOf env.now < s.day_end ∧
                        s.day_end ≤ hourOf (env.now + d)) ||
                     decide (dayOf (env.now + d) ≠ dayOf env.now))
                | none => false
              else false
            if bleed then some (((none, none), none), toplay, s)
            else if s.skip_next then
              some (((none, none), none), toplay, { s with skip_next := false })
            else some (((some chosen, next_track), some false), toplay, s)

/-- `Module.play` with enough fuel for the at-most-one self-call. -/
def amPlay (env : AMEnv) (toplay : List String) (s : AMState) (index : ℤ)
    (trackArg next_track : Option Track) :
    Option (AMResult × List String × AMState) :=
  amPlayFuel env 2 toplay s index trackArg next_track

/-- Modelled from the spec: §4.9 step 1 of the playout scheduler — the
scheduler core of this repository is not under `src/` — on
`((none, none), none)` the scheduler increments `song_i` and repeats
without calling the process manager; otherwise it plays the returned
track.  Result: the new `song_i` and whether a decoder process is
started for this step. -/
def schedulerStep (res : AMResult) (song_i : Nat) : Nat × Bool :=
  match res with
  | ((none, none), none) => (song_i + 1, false)
  | _ => (song_i, true)

/-- Modelled from the spec: §4.4's default time bands (late_night
`[0,5)`, morning `[5,10)`, day `[10,18)`, night otherwise) — the
advisor's band boundary hours. -/
def advisorBandBoundaries : List ℤ := [0, 5, 10, 18]

/-- Modelled from the spec: the two boundary hours of the advisor's IMC
reply unpacked by `on_new_playlist` (`active_modifier.py` line 32) into
`morning_start` and `day_end`.  The advisor module under `src/` answers
IMC with only its custom-playlist override, so the triple's shape is
missing from `src/`; scenario S4 fixes the first guarded boundary at the
morning→day hour 10, and §4.4 ends the day band at 18. -/
def advisorReplyBounds : ℤ × ℤ := (10, 18)

/-- Unfolding of `Module.play` when the playlist is loaded and non-empty
and the toplay queue expands to no entries: the originals queue and the
time-bleed guard decide the result. -/
theorem amPlay_no_songs (env : AMEnv) (toplay : List String) (s : AMState)
    (index : ℤ) (track : Track) (next : Option Track) (pl : List Track)
    (hpl : s.playlist = some pl) (hne : pl.isEmpty = false)
    (hsongs : expandToplay env toplay = []) :
    amPlay env toplay s index (some track) next =
      (let chosen := match s.originals with
        | o :: _ => o
        | [] => track
       let next_track := match s.originals with
        | _ :: rest => if rest.isEmpty then next else rest.head?
        | [] => next
       let s2 : AMState :=
        { s with last_track := some chosen,
                 originals := s.originals.tail, limit_tracks := s.can_limit_tracks }
       let bleed : Bool :=
        if s2.limit_tracks then
          match env.probe chosen.path with
          | some d =>
            decide (d ≠ 0) && decide (d > 5 * 60) &&
              (decide (hourOf env.now < s2.morning_start ∧
                  s2.morning_start ≤ hourOf (env.now + d)) ||
               decide (hourOf env.now < s2.day_end ∧
                  s2.day_end ≤ hourOf (env.now + d)) ||
               decide (dayOf (env.now + d) ≠ dayOf env.now))
          | none => false
        else false
       if bleed then some (((none, none), none), toplay, s2)
       else if s2.skip_next then
        some (((none, none), none), toplay, { s2 with skip_next := false })
       else some (((some chosen, next_track), some false), toplay, s2)) := by
  unfold amPlay amPlayFuel
  simp only [hpl, hne, hsongs, Bool.false_eq_true, if_false]

/-- A null active-modifier environment: nothing globs, no file exists,
identity `absolute`, failing duration probe, time 0. -/
def amEnvNull : AMEnv :=
  { glob := fun _ => [], isFile := fun _ => false, absPath := id,
    probe := fun _ => none, now := 0 }

/-- Concrete playlist track fixture. -/
def tP : Track :=
  { path := "p", fade_out := 0, fade_in := 0, official := true, args := none }

/-- Concrete original-track fixture (pushed first). -/
def tOrig1 : Track :=
  { path := "t1", fade_out := 0, fade_in := 0, official := true, args := none }

/-- Concrete original-track fixture (pushed last, the stack top). -/
def tOrig2 : Track :=
  { path := "t2", fade_out := 0, fade_in := 0, official := true, args := none }

/-- Modifier state with a loaded playlist and originals `[t1, t2]`,
guard and skip flag off. -/
def sOriginals : AMState :=
  { playlist := some [tP], originals := [tOrig1, tOrig2], last_track := none,
    limit_tracks := false, can_limit_tracks := false, morning_start := 10,
    day_end := 18, crossfade := 5, skip_next := false }

/-- C6 counterexample. With an empty toplay expansion and originals stack
`[t1, t2]` (`t1` pushed first, `t2` most recently pushed — the top),
`play` returns `t1` — `originals.pop(0)`, the *first* pushed element —
not the most recently pushed `t2` that the claim designates "the top of
the stack". -/
theorem activemod_originals_pops_front :
    (amPlay amEnvNull [] sOriginals 0 (some tP) none).map Prod.fst =
      some ((some tOrig1, some tOrig2), some false) ∧ tOrig1 ≠ tOrig2 := by
  constructor
  · rfl
  · intro h
    have := congrArg Track.path h
    simp [tOrig1, tOrig2] at this

/-- C6 amended. When the toplay queue expands to zero entries, the
originals list is non-empty, the skip-next flag is clear and the
time-bleed guard is disabled, `play` returns as `current'` the *first*
element of the originals list — the oldest pushed original (FIFO
`pop(0)`, not the most recently pushed top) — with extend `false`,
removing exactly that element; `next'` is the next remaining original if
any, else the incoming next track.  (With the guard enabled and firing,
or the skip-next flag set, `((none, none), none)` is returned instead —
the element is still removed.) -/
theorem activemod_originals_fifo (env : AMEnv) (toplay : List String) (s : AMState)
    (index : ℤ) (track : Track) (next : Option Track) (pl : List Track)
    (o : Track) (rest : List Track)
    (hpl : s.playlist = some pl) (hne : pl.isEmpty = false)
    (hsongs : expandToplay env toplay = [])
    (horig : s.originals = o :: rest)
    (hcl : s.can_limit_tracks = false) (hskip : s.skip_next = false) :
    amPlay env toplay s index (some track) next =
      some (((some o, if rest.isEmpty then next else rest.head?), some false), toplay,
        { s with last_track := some o, originals := rest, limit_tracks := false }) := by
  rw [amPlay_no_songs env toplay s index track next pl hpl hne hsongs]
  simp only [horig, hcl, hskip, List.tail_cons, Bool.false_eq_true, if_false]

/-- C6 amended, witness: originals `[t1, t2]` yield `t1` with extend
`false`, next `t2`, and the new originals list `[t2]`. -/
theorem activemod_originals_fifo_witness :
    amPlay amEnvNull [] sOriginals 0 (some tP) none =
      some (((some tOrig1,
          if ([tOrig2] : List Track).isEmpty then none
          else ([tOrig2] : List Track).head?), some false), [],
        { sOriginals with last_track := some tOrig1, originals := [tOrig2],
                          limit_tracks := false }) :=
  activemod_originals_fifo amEnvNull [] sOriginals 0 tP none [tP] tOrig1 [tOrig2]
    rfl rfl rfl rfl rfl rfl

/-- C1 amended. When the time-bleed guard is enabled
(`can_limit_tracks`), the toplay queue expands to zero entries, the
track `play` selects — the first queued original if the originals queue
is non-empty, otherwise the incoming track (`originals.headD track`) —
has a probed duration exceeding 5 minutes, and playing it now would
cross one of the two hour thresholds the advisor supplied
(`morning_start`, `day_end`) or the calendar-day boundary, then `play`
returns `((none, none), none)` and the scheduler step for a skip
advances `song_i` without starting a decoder process. -/
theorem activemod_timebleed_skip (env : AMEnv) (toplay : List String) (s : AMState)
    (index : ℤ) (track : Track) (next : Option Track) (pl : List Track) (d : ℚ)
    (hpl : s.playlist = some pl) (hne : pl.isEmpty = false)
    (hsongs : expandToplay env toplay = [])
    (hcl : s.can_limit_tracks = true)
    (hd : env.probe (s.originals.headD track).path = some d) (hdur : d > 5 * 60)
    (hcross : (hourOf env.now < s.morning_start ∧
        s.morning_start ≤ hourOf (env.now + d)) ∨
      (hourOf env.now < s.day_end ∧ s.day_end ≤ hourOf (env.now + d)) ∨
      dayOf (env.now + d) ≠ dayOf env.now) :
    (amPlay env toplay s index (some track) next).map Prod.fst =
      some ((none, none), none) ∧
    ∀ song_i : Nat, schedulerStep ((none, none), none) song_i = (song_i + 1, false) := by
  refine ⟨?_, fun _ => rfl⟩
  rw [amPlay_no_songs env toplay s index track next pl hpl hne hsongs]
  have hne0 : d ≠ 0 := ne_of_gt (lt_trans (by norm_num) hdur)
  have hbleed : (decide (d ≠ 0) && decide (d > 5 * 60) &&
      (decide (hourOf env.now < s.morning_start ∧
          s.morning_start ≤ hourOf (env.now + d)) ||
       decide (hourOf env.now < s.day_end ∧ s.day_end ≤ hourOf (env.now + d)) ||
       decide (dayOf (env.now + d) ≠ dayOf env.now))) = true := by
    simp only [Bool.and_eq_true, Bool.or_eq_true, decide_eq_true_eq]
    exact ⟨⟨hne0, hdur⟩, by rcases hcross with h | h | h <;> simp [h]⟩
  cases horig : s.originals with
  | nil =>
    rw [horig] at hd
    simp only [List.headD] at hd
    simp only [horig, hcl, hd, hbleed, if_true]
    rfl
  | cons o rest =>
    rw [horig] at hd
    simp only [List.headD] at hd
    simp only [horig, hcl, hd, hbleed, if_true]
    rfl

/-- Environment for the S4 scenario: a 600-second track proposed at
09:55 (timestamp 35700 s into the day). -/
def amEnvS4 : AMEnv :=
  { glob := fun _ => [], isFile := fun _ => false, absPath := id,
    probe := fun _ => some 600, now := 35700 }

/-- Modifier state with the guard enabled and the spec-modelled advisor
boundary hours (10 and 18). -/
def sGuard : AMState :=
  { playlist := some [tP], originals := [], last_track := none,
    limit_tracks := false, can_limit_tracks := true,
    morning_start := advisorReplyBounds.1, day_end := advisorReplyBounds.2,
    crossfade := 5, skip_next := false }

/-- C1 amended, witness — spec scenario S4: a 600 s track proposed at
09:55 crosses the guarded boundary hour 10, so `play` skips and the
scheduler advances `song_i` without starting a decoder process. -/
theorem activemod_timebleed_skip_witness :
    (amPlay amEnvS4 [] sGuard 0 (some tP) none).map Prod.fst =
      some ((none, none), none) ∧
    ∀ song_i : Nat, schedulerStep ((none, none), none) song_i = (song_i + 1, false) :=
  activemod_timebleed_skip amEnvS4 [] sGuard 0 tP none [tP] 600
    rfl rfl rfl rfl rfl (by norm_num)
    (Or.inl ⟨by norm_num [hourOf, amEnvS4, sGuard, advisorReplyBounds],
      by norm_num [hourOf, amEnvS4, sGuard, advisorReplyBounds]⟩)

/-- Environment for the unguarded-boundary counterexample: a 600-second
track proposed at 04:55 (timestamp 17700 s), crossing the 05:00
late_night→morning band boundary. -/
def amEnvBoundary5 : AMEnv :=
  { glob := fun _ => [], isFile := fun _ => false, absPath := id,
    probe := fun _ => some 600, now := 17700 }

/-- Environment for the toplay-substitution part of the counterexample:
the toplay file names `sub.mp3`, which globs to itself and exists; every
probe answers 600 s; the time is 09:55 (timestamp 35700 s), right before
the guarded 10:00 boundary. -/
def amEnvSub : AMEnv :=
  { glob := fun s => [s], isFile := fun _ => true, absPath := id,
    probe := fun _ => some 600, now := 35700 }

/-- The Track that `play` builds for the substituted toplay entry in the
counterexample's second part (`active_modifier.py` lines 92–95). -/
def tSub : Track :=
  { path := "sub.mp3", fade_out := 5, fade_in := 0, official := true,
    args := some [], offset := 0, focus_time_offset := -5 }

/-- C1 counterexample, in two parts.  (1) The guard tests only the two
thresholds `morning_start` and `day_end` (10 and 18 under the
spec-modelled advisor reply) plus the day change, so a 600 s track
proposed at 04:55 — which crosses the advisor's 05:00 band boundary
(late_night→morning) and exceeds 5 minutes — is *not* skipped: `play`
returns the track with extend `false`.  (2) The guard never applies to
toplay substitutions: when the toplay queue holds `sub.mp3` (probed at
600 s) at 09:55, `play` selects it although it crosses even the guarded
10:00 boundary, returning the substitute with extend `true` instead of
`((none, none), none)` (line 97 clears `limit_tracks` in the
substitution branch).  Together these refute "the active modifier's play
selects a track whose probed duration exceeds 5 minutes, and … would
cross one of the Advisor's band boundaries … then play returns
((none, none), none)", and force both restrictions of the amended
claim. -/
theorem activemod_timebleed_boundary5_not_guarded :
    (((5 : ℤ) ∈ advisorBandBoundaries ∧ hourOf (17700 : ℚ) < 5 ∧
        (5 : ℤ) ≤ hourOf ((17700 : ℚ) + 600) ∧ (600 : ℚ) > 5 * 60) ∧
      (amPlay amEnvBoundary5 [] sGuard 0 (some tP) none).map Prod.fst =
        some ((some tP, none), some false)) ∧
    ((hourOf (35700 : ℚ) < advisorReplyBounds.1 ∧
        advisorReplyBounds.1 ≤ hourOf ((35700 : ℚ) + 600) ∧
        amEnvSub.probe tSub.path = some 600 ∧ (600 : ℚ) > 5 * 60) ∧
      (amPlay amEnvSub ["sub.mp3"] sGuard 0 (some tP) none).map Prod.fst =
        some ((some tSub, some tP), some true)) := by
  have h1 : hourOf ((17700 : ℚ)) = 4 := by norm_num [hourOf]
  have h2 : hourOf ((17700 : ℚ) + 600) = 5 := by norm_num [hourOf]
  have h3 : dayOf ((17700 : ℚ) + 600) = dayOf (17700 : ℚ) := by norm_num [dayOf]
  refine ⟨⟨⟨by decide, by rw [h1]; norm_num, by rw [h2], by norm_num⟩, ?_⟩,
    ⟨⟨by norm_num [hourOf, advisorReplyBounds],
      by norm_num [hourOf, advisorReplyBounds], rfl, by norm_num⟩, ?_⟩⟩
  · rw [amPlay_no_songs amEnvBoundary5 [] sGuard 0 tP none [tP] rfl rfl rfl]
    simp only [sGuard, amEnvBoundary5]
    simp only [h1, h2, h3]
    norm_num [advisorReplyBounds]
  · rfl
